import Mathlib

/-!
Verification development for the simplereaderd synchronization daemon.

The definitions below are a shallow embedding of the server's core logic:

* the tombstoned per-user record tables (`user_books`, `user_bookmarks`,
  `user_highlights`, `user_notes`) kept in SQLite, together with the SQL
  statements the server issues against them (`Database.cpp`);
* the request handlers for `POST /update`, `POST /delete`, `POST /getSince`,
  `POST /check`, `POST /get`, `POST /uploadBook` and `GET /book/{fileId}`;
* the in-memory session map (`SessionManager.cpp`).

SQLite tables are modelled as lists of (key, row) pairs; timestamps are `Int`
(epoch milliseconds); nullable columns are `Option`; the SQL `COALESCE`,
`ON CONFLICT ... DO UPDATE` and `UPDATE ... WHERE` statements are translated
statement-by-statement.
-/

namespace SimpleReader

/-- A tombstoned record row: the non-key columns shared by every synced table
(`payload` stands for the per-kind payload columns, `updated_at`,
`deleted_at`). `deletedAt = none` models SQL NULL (a live row). -/
structure TRow (π : Type) where
  payload   : π
  updatedAt : Int
  deletedAt : Option Int
  deriving Repr, DecidableEq

/-- A synced SQLite table, keyed by `κ` (the PRIMARY KEY columns). -/
abbrev Table (κ π : Type) := List (κ × TRow π)

/-- `SELECT ... WHERE <key> LIMIT 1`: first row with the given key. -/
def findRow [DecidableEq κ] (t : Table κ π) (k : κ) : Option (TRow π) :=
  (t.find? (fun e => e.1 = k)).map (·.2)

/-- `Database::RowState` (Database.h): result of the existence probe.
`rowExists` is the source's `exists` member (a Lean keyword-safe rename). -/
structure RowState where
  rowExists : Bool
  deleted   : Bool
  updatedAt : Int
  deletedAt : Int
  deriving Repr, DecidableEq

/-- `fetchRowState` (Database.cpp:305): translate an optional row into a
`RowState`.  A present tombstone row yields `exists=false, deleted=true`;
`deletedAt` is 0 when the column is NULL; defaults on no row. -/
def fetchRowState (r? : Option (TRow π)) : RowState :=
  match r? with
  | none   => ⟨false, false, 0, 0⟩
  | some r =>
      let hasDel := r.deletedAt.isSome
      ⟨!hasDel, hasDel, r.updatedAt, r.deletedAt.getD 0⟩

/-- `select_userBooks_byUserAndFileId` / `select_byUserFileAndItemId`
(Database.cpp:333, 349): key lookup producing a `RowState`. -/
def selectRowState [DecidableEq κ] (t : Table κ π) (k : κ) : RowState :=
  fetchRowState (findRow t k)

/-- The `INSERT ... ON CONFLICT(<key>) DO UPDATE SET ...` statement shared by
`insertUserBook` / `insertUserBookmark` / `insertUserHighlight` /
`insertUserNote` (Database.cpp:827-964): insert a live row, or on a key
conflict overwrite the payload and `updated_at` and set
`deleted_at = CASE WHEN resurrect THEN NULL ELSE old END`. -/
def upsertRow [DecidableEq κ] (t : Table κ π) (k : κ) (p : π)
    (resurrect : Bool) (tnow : Int) : Table κ π :=
  if (t.find? (fun e => e.1 = k)).isSome then
    t.map (fun e =>
      if e.1 = k then
        (e.1, ⟨p, tnow, if resurrect then none else e.2.deletedAt⟩)
      else e)
  else
    t ++ [(k, ⟨p, tnow, none⟩)]

/-- The `UPDATE <table> SET deleted_at=?t, updated_at=?t WHERE <key>`
statement of `softDeleteUserBook` / `softDeleteUserBookmark` /
`softDeleteUserHighlight` / `softDeleteUserNote` (Database.cpp:968-1043). -/
def softDeleteRow [DecidableEq κ] (t : Table κ π) (k : κ) (tnow : Int) :
    Table κ π :=
  t.map (fun e =>
    if e.1 = k then (e.1, ⟨e.2.payload, tnow, some tnow⟩) else e)

/-- The `UPDATE <table> SET deleted_at=?t, updated_at=?t WHERE username AND
file_id` statement of `softDeleteUserBookmarkAll` /
`softDeleteUserHighlightAll` / `softDeleteUserNoteAll`
(Database.cpp:1045-1097), generalised over the WHERE predicate on the key. -/
def softDeleteWhere (t : Table κ π) (pred : κ → Bool) (tnow : Int) :
    Table κ π :=
  t.map (fun e =>
    if pred e.1 then (e.1, ⟨e.2.payload, tnow, some tnow⟩) else e)

/-- Outcome of one `/update` table branch (registerUpdateHandler,
dh_update.cpp): `ok(updatedAt)` or `conflict(serverUpdatedAt)`. -/
inductive UpdResult where
  | applied  (updatedAt : Int)
  | conflict (serverUpdatedAt : Int)
  deriving Repr, DecidableEq

/-- body of each `/update` table branch (dh_update.cpp lines 100-137 for
books and bookmarks, 158-167 for highlights): probe the current row, compute
`serverTs = st.deleted ? st.deletedAt : st.updatedAt`, reject with
`conflict(serverTs)` when `!force && serverTs > 0 && clientTs < serverTs`,
otherwise upsert with `resurrect = true` at the server clock `tnow`. -/
def updateEntity [DecidableEq κ] (t : Table κ π) (k : κ) (p : π)
    (clientTs : Int) (force : Bool) (tnow : Int) : UpdResult × Table κ π :=
  let st := selectRowState t k
  let serverTs := if st.deleted then st.deletedAt else st.updatedAt
  if !force && decide (serverTs > 0) && decide (clientTs < serverTs) then
    (.conflict serverTs, t)
  else
    (.applied tnow, upsertRow t k p true tnow)

/-- Outcome of one `/delete` table branch (registerDeleteHandler,
dh_delete.cpp): `ok(deletedAt)` or `not_found`. -/
inductive DelResult where
  | deletedAt (ts : Int)
  | notFound
  deriving Repr, DecidableEq

/-- body of the `/delete` bookmark and highlight branches
(dh_delete.cpp:75-109): probe; `not_found` when no row; if already
tombstoned return the stored `deletedAt` unchanged; otherwise set
`deleted_at = updated_at = tnow`. -/
def deleteEntity [DecidableEq κ] (t : Table κ π) (k : κ) (tnow : Int) :
    DelResult × Table κ π :=
  let st := selectRowState t k
  if !st.rowExists && !st.deleted then (.notFound, t)
  else if st.deleted then (.deletedAt st.deletedAt, t)
  else (.deletedAt tnow, softDeleteRow t k tnow)

/-- The claim's `serverTs`: the row's `deletedAt` if the row is tombstoned,
else its `updatedAt`, and 0 if no row exists.  Stated directly from the
spec's words, to be compared with the handler's
`st.deleted ? st.deletedAt : st.updatedAt`. -/
def specServerTs [DecidableEq κ] (t : Table κ π) (k : κ) : Int :=
  match findRow t k with
  | none => 0
  | some r =>
      match r.deletedAt with
      | some d => d
      | none   => r.updatedAt

/-- A row of the `books` table (initSchema, Database.cpp:99-109): the
content-addressed asset index, with `UNIQUE (sha256, filesize)` and
`file_id` as PRIMARY KEY. -/
structure BookRec where
  fileId    : String
  sha256    : String
  filesize  : Int
  location  : String
  filename  : String
  updatedAt : Int
  deriving Repr, DecidableEq

/-- `lookupFileIdByHashSize` (Database.cpp:372): `SELECT file_id FROM books
WHERE sha256=? AND filesize=? LIMIT 1`; the empty string means not found. -/
def lookupFileIdByHashSize (books : List BookRec) (sha : String)
    (size : Int) : String :=
  match books.find? (fun b => decide (b.sha256 = sha)
      && decide (b.filesize = size)) with
  | some b => b.fileId
  | none => ""

/-- `insertBookRecord` (Database.cpp:1142): plain `INSERT INTO books`; a
violation of the `file_id` PRIMARY KEY or of `UNIQUE (sha256, filesize)`
makes the step fail (the C++ throws; modelled as `Except`). -/
def insertBookRecord (books : List BookRec) (b : BookRec) :
    Except Unit (List BookRec) :=
  if books.any (fun x => decide (x.fileId = b.fileId)
      || (decide (x.sha256 = b.sha256) && decide (x.filesize = b.filesize)))
  then .error ()
  else .ok (books ++ [b])

/-- The `/uploadBook` commit path after the byte checks pass
(dh_uploadBook.cpp:105-197): when the client sent no usable `fileId`
(`unknownId`), first deduplicate by `(sha, size)`, answering the existing
id; otherwise insert a fresh row (id = uuid when unknown, else the supplied
id), and on an insert failure treat it as the dedup race: look the content
up again and answer the winner's id; `none` models `server_error`. -/
def uploadBookCommit (books : List BookRec) (unknownId : Bool)
    (suppliedId newUuid : String) (sha : String) (size : Int)
    (loc fn : String) (tnow : Int) : List BookRec × Option String :=
  if unknownId && !(lookupFileIdByHashSize books sha size == "") then
    (books, some (lookupFileIdByHashSize books sha size))
  else
    let newId := if unknownId then newUuid else suppliedId
    match insertBookRecord books ⟨newId, sha, size, loc, fn, tnow⟩ with
    | .ok books2 => (books2, some newId)
    | .error _ =>
        let existing := lookupFileIdByHashSize books sha size
        if existing = "" then (books, none)
        else (books, some existing)

/-- `UNIQUE (sha256, filesize)`: no two asset rows share hash and size. -/
def UniqueAssets (books : List BookRec) : Prop :=
  books.Pairwise (fun a b => ¬(a.sha256 = b.sha256 ∧ a.filesize = b.filesize))

/-- The outcome of the post-transfer verification step of `/uploadBook`
(dh_uploadBook.cpp:146-163): the app-level error it answers (if any),
whether the temp file was removed, and whether anything was persisted at
this step. -/
structure UploadCheck where
  errorCode  : Option (String × String)
  tmpRemoved : Bool
  persisted  : Bool
  deriving Repr, DecidableEq

/-- Verify size and sha of the received bytes (dh_uploadBook.cpp:146-163):
`actualSize != sizeClaim` answers `server_error` with reason
"filesize mismatch"; a sha mismatch answers `checksum_mismatch`; in both
cases `cleanupTmp()` runs and nothing has been persisted. -/
def verifyUploadBytes (actualSize sizeClaim : Int)
    (actualSha shaHex : String) : UploadCheck :=
  if actualSize ≠ sizeClaim then
    ⟨some ("server_error", "filesize mismatch"), true, false⟩
  else if actualSha ≠ shaHex then
    ⟨some ("checksum_mismatch", ""), true, false⟩
  else ⟨none, false, false⟩

/-- The whole durable state touched by the `/delete` books branch:
the asset index plus the four per-user synced tables. -/
structure SyncDb (πb πm πh πn : Type) where
  books      : List BookRec
  userBooks  : Table (String × String) πb
  bookmarks  : Table (String × String × Int) πm
  highlights : Table (String × String × Int) πh
  notes      : Table (String × String × Int) πn

/-- The `/delete` books/book_data branch (dh_delete.cpp:57-73): probe the
`user_books` row; `not_found` when absent; answer the stored tombstone when
already deleted; otherwise soft-delete the `user_books` row and also run
`softDeleteUserBookmarkAll` and `softDeleteUserHighlightAll` for this
`(username, fileId)` at the same `tnow` (the handler calls no equivalent
for `user_notes`, and never touches `books`). -/
def deleteBookHandler (s : SyncDb πb πm πh πn) (u f : String) (tnow : Int) :
    DelResult × SyncDb πb πm πh πn :=
  let st := selectRowState s.userBooks (u, f)
  if !st.rowExists && !st.deleted then (.notFound, s)
  else if st.deleted then (.deletedAt st.deletedAt, s)
  else
    (.deletedAt tnow,
      { s with
        userBooks := softDeleteRow s.userBooks (u, f) tnow
        bookmarks := softDeleteWhere s.bookmarks
          (fun k => decide (k.1 = u) && decide (k.2.1 = f)) tnow
        highlights := softDeleteWhere s.highlights
          (fun k => decide (k.1 = u) && decide (k.2.1 = f)) tnow })

/-- One session map entry (SessionManager.h). -/
structure Sess where
  username : String
  device   : String
  expires  : Int
  deriving Repr, DecidableEq

/-- `SessionManager::usernameIfValid(token)` (SessionManager.cpp:59-75):
empty token or unknown token answer the empty string; a found entry whose
`expires <= now` is erased from the map and the empty string is answered;
otherwise the entry's username.  Returns (answer, new map). -/
def usernameIfValid (sessions : List (String × Sess)) (token : String)
    (now : Int) : String × List (String × Sess) :=
  if token = "" then ("", sessions)
  else
    match sessions.find? (fun e => e.1 = token) with
    | none => ("", sessions)
    | some e =>
        if e.2.expires ≤ now then
          ("", sessions.eraseP (fun x => decide (x.1 = token)))
        else (e.2.username, sessions)

/-- What `getBookForDownload` (Database.cpp:1105-1138) hands back through
its return value and out-parameters; all-empty means "no usable row". -/
structure DlMeta where
  clientFileName : String
  location       : String
  filesize       : Int
  sha256         : String
  deriving Repr, DecidableEq

/-- `getBookForDownload`: `SELECT location, filesize, sha256, filename FROM
books WHERE file_id=? LIMIT 1`; out-parameters keep their defaults when no
row is found (`location` and `sha256` are NOT NULL by schema). -/
def getBookForDownload (books : List BookRec) (fileId : String) : DlMeta :=
  match books.find? (fun b => decide (b.fileId = fileId)) with
  | some b => ⟨b.filename, b.location, b.filesize, b.sha256⟩
  | none => ⟨"", "", 0, ""⟩

/-- HTTP-level outcome of `GET /book/{fileId}`. -/
inductive HttpOutcome where
  | notFound    (reason : String)
  | serverError (reason : String)
  | fileStream  (path : String) (headers : List (String × String))
  deriving Repr, DecidableEq

/-- `registerGetBookHandler` (utils.cpp download handler, post-auth): 404
when the lookup produced no client file name; 404 when the file does not
exist on disk; 500 (`size mismatch`) when `size >= 0` and the on-disk size
differs from the recorded one; otherwise stream the file with the
`X-Checksum-SHA256` and `X-Filename` headers.  The filesystem is modelled
as a path→size association list (present = `fs::exists`). -/
def getBookHandler (books : List BookRec) (fsSizes : List (String × Int))
    (fileId : String) : HttpOutcome :=
  let m := getBookForDownload books fileId
  if m.clientFileName = "" then .notFound "book record not found"
  else
    match fsSizes.find? (fun e => e.1 = m.location) with
    | none => .notFound "file not found"
    | some e =>
        if decide (0 ≤ m.filesize) && decide (e.2 ≠ m.filesize) then
          .serverError "size mismatch"
        else
          .fileStream m.location
            [("X-Checksum-SHA256", m.sha256), ("X-Filename", m.clientFileName)]

/-- Which sub-handler a request's `table` string selects. -/
inductive TableDispatch where
  | serveBooks | serveBookmark | serveHighlight | serveNote
  | invalidRequest (reason : String)
  deriving Repr, DecidableEq

/-- Table dispatch of `POST /check` (dh_check.cpp:65-92): books/book_data,
then bookmark/highlight (the two share a branch; the concrete table is then
chosen by the `highlight` substring test), else
`err("invalid_request", "table unknown")`. -/
def checkTableDispatch (table : String) : TableDispatch :=
  if table = "books" || table = "book_data" then .serveBooks
  else if table = "bookmark" || table = "highlight" then
    (if table = "highlight" then .serveHighlight else .serveBookmark)
  else .invalidRequest "table unknown"

/-- Table dispatch of `POST /getSince` (dh_getSince.cpp:65-73):
books/book_data, bookmark, highlight, else
`err("invalid_request", "unknown tablename")`. -/
def getSinceTableDispatch (table : String) : TableDispatch :=
  if table = "books" || table = "book_data" then .serveBooks
  else if table = "bookmark" then .serveBookmark
  else if table = "highlight" then .serveHighlight
  else .invalidRequest "unknown tablename"

/-- Table dispatch of `POST /delete` (dh_delete.cpp:57-111):
books/book_data, bookmark, highlight, else
`err("invalid_request", "unknown table")`. -/
def deleteTableDispatch (table : String) : TableDispatch :=
  if table = "books" || table = "book_data" then .serveBooks
  else if table = "bookmark" then .serveBookmark
  else if table = "highlight" then .serveHighlight
  else .invalidRequest "unknown table"

/-- Table dispatch of `POST /get` (dh_get.cpp:62-72): books/book_data,
bookmark, highlight and also note, else
`err("invalid_request", "unknown table")`. -/
def getTableDispatch (table : String) : TableDispatch :=
  if table = "books" || table = "book_data" then .serveBooks
  else if table = "bookmark" then .serveBookmark
  else if table = "highlight" then .serveHighlight
  else if table = "note" then .serveNote
  else .invalidRequest "unknown table"

/-- The `err(code, reason)` JSON object every handler answers on an
unknown table: `ok:false` plus the error code and reason; `none` when the
dispatch selected a sub-handler. -/
def unknownTableErr : TableDispatch → Option (Bool × String × String)
  | .invalidRequest r => some (false, "invalid_request", r)
  | _ => none

/-- `listUserNotes` (Database.cpp:529-573), driven by the note branch of
`POST /get` (dh_get.cpp:68-69): all rows of `user_notes` under
`(username, fileId)` when `id < 0`, else the single `id` row; live and
tombstoned rows alike. -/
def listUserNotesRows (notes : Table (String × String × Int) π)
    (u f : String) (id : Int) : Table (String × String × Int) π :=
  if id < 0 then
    notes.filter (fun e => decide (e.1.1 = u) && decide (e.1.2.1 = f))
  else
    notes.filter (fun e => decide (e.1.1 = u) && decide (e.1.2.1 = f)
      && decide (e.1.2.2 = id))

/-- A row of `user_bookmarks` as read by `listUserBookmarksSince`
(Database.cpp:648-704). -/
structure BmRow where
  username  : String
  fileId    : String
  id        : Int
  locator   : String
  label     : Option String
  updatedAt : Int
  deletedAt : Option Int
  deriving Repr, DecidableEq

/-- `COALESCE(deleted_at, updated_at)`, the `ts` column of the query. -/
def bmTs (r : BmRow) : Int := r.deletedAt.getD r.updatedAt

/-- The `ORDER BY ts ASC, file_id ASC, id ASC` sort key, as a lexicographic
product. -/
def bmKey (r : BmRow) : Int ×ₗ (String ×ₗ Int) :=
  toLex (bmTs r, toLex (r.fileId, r.id))

/-- The row order of the `/getSince` bookmark query. -/
def bmLE (a b : BmRow) : Prop := bmKey a ≤ bmKey b

instance : DecidableRel bmLE := fun a b =>
  inferInstanceAs (Decidable (bmKey a ≤ bmKey b))

instance : IsTotal BmRow bmLE := ⟨fun a b => le_total (bmKey a) (bmKey b)⟩

instance : IsTrans BmRow bmLE := ⟨fun _ _ _ h h2 => le_trans h h2⟩

/-- `computePagingNextSince` (Database.cpp:578-592): the extra row's
timestamp when `limit+1` rows were fetched, else the last returned
timestamp, else the input `since`. -/
def computePagingNextSince (sinceIn : Int) (pageTs : List Int)
    (hitExtra : Bool) : Int :=
  if hitExtra then pageTs.getLastD sinceIn
  else if !pageTs.isEmpty then pageTs.getLastD sinceIn
  else sinceIn

/-- The `WHERE username = ? AND COALESCE(deleted_at, updated_at) >= ?`
filter of the `/getSince` queries. -/
def bmSincePred (u : String) (since : Int) (r : BmRow) : Bool :=
  decide (r.username = u) && decide (since ≤ bmTs r)

/-- `listUserBookmarksSince` (Database.cpp:648-704): fetch the first
`limit+1` matching rows in query order, return the first `limit` of them,
record every fetched `ts`, and compute `nextSince` from whether the extra
row was hit. -/
def listUserBookmarksSince (db : List BmRow) (u : String) (since : Int)
    (limit : Nat) : List BmRow × Int :=
  let fetch := limit + 1
  let cands := (List.insertionSort bmLE (db.filter (bmSincePred u since))).take fetch
  let rows := cands.take limit
  let tsSeen := cands.map bmTs
  (rows, computePagingNextSince since tsSeen (decide (cands.length > limit)))

/-- The handler's `serverTs` computation agrees with the spec's description
of it for every table state. -/
theorem codeServerTs_eq_spec [DecidableEq κ] (t : Table κ π) (k : κ) :
    (if (selectRowState t k).deleted then (selectRowState t k).deletedAt
     else (selectRowState t k).updatedAt) = specServerTs t k := by
  unfold selectRowState fetchRowState specServerTs
  cases h : findRow t k with
  | none => simp
  | some r => cases hd : r.deletedAt <;> simp [hd]

/-- Looking up key `k` after a map that rewrites exactly the rows keyed `k`
returns the rewritten row. -/
theorem findRow_mapIf [DecidableEq κ] (t : Table κ π) (k : κ)
    (f : TRow π → TRow π) :
    findRow (t.map (fun e => if e.1 = k then (e.1, f e.2) else e)) k
      = (findRow t k).map f := by
  induction t with
  | nil => rfl
  | cons a rest ih =>
      by_cases h : a.1 = k
      · unfold findRow
        simp [List.find?_cons_of_pos, h]
      · unfold findRow at ih ⊢
        simp only [List.map_cons, if_neg h]
        rw [List.find?_cons_of_neg, List.find?_cons_of_neg]
        · exact ih
        · simp [h]
        · simp [h]

/-- Appending a fresh row keyed `k` to a table without key `k` makes lookup
of `k` return it. -/
theorem findRow_append_single [DecidableEq κ] (t : Table κ π) (k : κ)
    (row : TRow π) (h : t.find? (fun e => e.1 = k) = none) :
    findRow (t ++ [(k, row)]) k = some row := by
  unfold findRow
  rw [List.find?_append, h]
  simp

/-- After an upsert with `resurrect = true`, the key holds exactly the fresh
payload at time `tnow` with no tombstone. -/
theorem findRow_upsertRow_true [DecidableEq κ] (t : Table κ π) (k : κ)
    (p : π) (tnow : Int) :
    findRow (upsertRow t k p true tnow) k = some ⟨p, tnow, none⟩ := by
  unfold upsertRow
  by_cases h : (t.find? (fun e => e.1 = k)).isSome
  · rw [if_pos h]
    have hm := findRow_mapIf (f := fun _ => (⟨p, tnow, none⟩ : TRow π)) t k
    simp only [if_true] at hm ⊢
    rw [hm]
    rcases Option.isSome_iff_exists.mp h with ⟨e, he⟩
    unfold findRow
    rw [he]
    rfl
  · rw [if_neg h]
    exact findRow_append_single t k _ (Option.not_isSome_iff_eq_none.mp h)

/-- Soft-deleting a key rewrites exactly that key's row to the tombstoned
version at time `tnow`. -/
theorem findRow_softDeleteRow_self [DecidableEq κ] (t : Table κ π) (k : κ)
    (tnow : Int) :
    findRow (softDeleteRow t k tnow) k
      = (findRow t k).map (fun r => ⟨r.payload, tnow, some tnow⟩) := by
  unfold softDeleteRow
  exact findRow_mapIf t k (fun r => ⟨r.payload, tnow, some tnow⟩)

/-- The update handler, rephrased as a case split on the claim's conflict
condition. -/
theorem updateEntity_cases [DecidableEq κ] (t : Table κ π) (k : κ) (p : π)
    (clientTs : Int) (force : Bool) (tnow : Int) :
    updateEntity t k p clientTs force tnow
      = if force = false ∧ 0 < specServerTs t k
           ∧ clientTs < specServerTs t k then
          (.conflict (specServerTs t k), t)
        else
          (.applied tnow, upsertRow t k p true tnow) := by
  have hsrv := codeServerTs_eq_spec t k
  simp only [updateEntity]
  rw [hsrv]
  have hbool : (!force && decide (specServerTs t k > 0)
      && decide (clientTs < specServerTs t k)) = true
      ↔ (force = false ∧ 0 < specServerTs t k
          ∧ clientTs < specServerTs t k) := by
    simp [Bool.and_eq_true, decide_eq_true_eq, Bool.not_eq_true', and_assoc]
  rcases Classical.em (force = false ∧ 0 < specServerTs t k
      ∧ clientTs < specServerTs t k) with hc | hc
  · rw [if_pos (hbool.mpr hc), if_pos hc]
  · rw [if_neg (fun h => hc (hbool.mp h)), if_neg hc]

/-- C1: an authenticated `/update` on a book, bookmark or highlight key is
rejected with `conflict(serverTs)` — with the table left unchanged — if and
only if `force` is false, `serverTs > 0` and `clientTs < serverTs`, where
`serverTs` is the tombstone timestamp of a tombstoned row, the `updatedAt`
of a live row, and 0 when no row exists; in every other case (including
`clientTs = serverTs`) the upsert is applied, and both the returned and the
stored `updatedAt` equal the server clock `tnow`, not `clientTs`. -/
theorem C1_update_conflict_rule [DecidableEq κ] (t : Table κ π) (k : κ)
    (p : π) (clientTs : Int) (force : Bool) (tnow : Int) :
    ((updateEntity t k p clientTs force tnow).1
          = .conflict (specServerTs t k)
        ∧ (updateEntity t k p clientTs force tnow).2 = t
      ↔ force = false ∧ 0 < specServerTs t k
          ∧ clientTs < specServerTs t k)
    ∧ (¬(force = false ∧ 0 < specServerTs t k
          ∧ clientTs < specServerTs t k) →
        (updateEntity t k p clientTs force tnow).1 = .applied tnow
        ∧ ∃ r, findRow (updateEntity t k p clientTs force tnow).2 k = some r
            ∧ r.updatedAt = tnow) := by
  rw [updateEntity_cases]
  rcases Classical.em (force = false ∧ 0 < specServerTs t k
      ∧ clientTs < specServerTs t k) with hc | hc
  · rw [if_pos hc]
    exact ⟨by simp [hc], fun h => absurd hc h⟩
  · rw [if_neg hc]
    refine ⟨?_, fun _ => ⟨rfl, ⟨p, tnow, none⟩,
      findRow_upsertRow_true t k p tnow, rfl⟩⟩
    simp only [iff_false_intro hc, iff_false]
    intro hcontra
    exact UpdResult.noConfusion hcontra.1

/-- Closed instance of `C1_update_conflict_rule`: on an empty table
(`serverTs = 0`) an update with `clientTs = 5` is applied and stamped with
the server clock 7. -/
theorem C1_update_conflict_rule_witness :
    (updateEntity ([] : Table Int Int) 1 0 5 false 7).1 = .applied 7 := by
  have h := C1_update_conflict_rule ([] : Table Int Int) 1 0 5 false 7
  exact (h.2 (by decide)).1

/-- C4: every successful `/update` upsert leaves the written row live —
its `deletedAt` is NULL afterwards — unconditionally, so a successful upsert
after a prior soft delete always resurrects the record. -/
theorem C4_upsert_clears_tombstone [DecidableEq κ] (t : Table κ π) (k : κ)
    (p : π) (clientTs : Int) (force : Bool) (tnow ts : Int)
    (h : (updateEntity t k p clientTs force tnow).1 = .applied ts) :
    ∃ r, findRow (updateEntity t k p clientTs force tnow).2 k = some r
      ∧ r.deletedAt = none := by
  rw [updateEntity_cases] at h ⊢
  rcases Classical.em (force = false ∧ 0 < specServerTs t k
      ∧ clientTs < specServerTs t k) with hc | hc
  · rw [if_pos hc] at h
    exact absurd h (fun hctr => UpdResult.noConfusion hctr)
  · rw [if_neg hc]
    exact ⟨⟨p, tnow, none⟩, findRow_upsertRow_true t k p tnow, rfl⟩

/-- Closed instance of `C4_upsert_clears_tombstone`: a forced update of a
tombstoned row leaves the row live. -/
theorem C4_upsert_clears_tombstone_witness :
    ∃ r, findRow (updateEntity
        ([((1 : Int), (⟨0, 10, some 10⟩ : TRow Int))]) 1 99 5 true 20).2 1
        = some r ∧ r.deletedAt = none := by
  exact C4_upsert_clears_tombstone
    ([((1 : Int), (⟨0, 10, some 10⟩ : TRow Int))]) 1 99 5 true 20 20
    (by decide)

/-- C6: on a key that has a row, `/delete` is idempotent: on a tombstoned
row it returns the stored `deletedAt` and changes nothing; on a live row it
sets `deletedAt = updatedAt = tnow`; and two consecutive deletes return
the same `deletedAt` both times. -/
theorem C6_softDelete_idempotent [DecidableEq κ] (t : Table κ π) (k : κ)
    (t1 t2 : Int) (r : TRow π) (h : findRow t k = some r) :
    (∀ d, r.deletedAt = some d → deleteEntity t k t1 = (.deletedAt d, t))
    ∧ (r.deletedAt = none →
        deleteEntity t k t1 = (.deletedAt t1, softDeleteRow t k t1)
        ∧ findRow (softDeleteRow t k t1) k = some ⟨r.payload, t1, some t1⟩)
    ∧ (deleteEntity (deleteEntity t k t1).2 k t2).1
        = (deleteEntity t k t1).1 := by
  have hsel : selectRowState t k = fetchRowState (some r) := by
    unfold selectRowState; rw [h]
  refine ⟨?_, ?_, ?_⟩
  · intro d hd
    unfold deleteEntity
    rw [hsel]
    unfold fetchRowState
    simp [hd]
  · intro hd
    constructor
    · unfold deleteEntity
      rw [hsel]
      unfold fetchRowState
      simp [hd]
    · rw [findRow_softDeleteRow_self, h]
      rfl
  · cases hd : r.deletedAt with
    | some d =>
        have h1 : deleteEntity t k t1 = (.deletedAt d, t) := by
          unfold deleteEntity
          rw [hsel]; unfold fetchRowState; simp [hd]
        have h2 : deleteEntity t k t2 = (.deletedAt d, t) := by
          unfold deleteEntity
          rw [hsel]; unfold fetchRowState; simp [hd]
        rw [h1, h2]
    | none =>
        have h1 : deleteEntity t k t1 = (.deletedAt t1, softDeleteRow t k t1) := by
          unfold deleteEntity
          rw [hsel]; unfold fetchRowState; simp [hd]
        have hf : findRow (softDeleteRow t k t1) k
            = some ⟨r.payload, t1, some t1⟩ := by
          rw [findRow_softDeleteRow_self, h]
          rfl
        have h2 : deleteEntity (softDeleteRow t k t1) k t2
            = (.deletedAt t1, softDeleteRow t k t1) := by
          unfold deleteEntity selectRowState
          rw [hf]
          unfold fetchRowState
          simp
        rw [h1, h2]

/-- Closed instance of `C6_softDelete_idempotent`: deleting a live row twice
returns the first delete's timestamp both times. -/
theorem C6_softDelete_idempotent_witness :
    (deleteEntity (deleteEntity
        [((1 : Int), (⟨0, 10, none⟩ : TRow Int))] 1 20).2 1 30).1
      = (deleteEntity [((1 : Int), (⟨0, 10, none⟩ : TRow Int))] 1 20).1 := by
  exact (C6_softDelete_idempotent
    [((1 : Int), (⟨0, 10, none⟩ : TRow Int))] 1 20 30 ⟨0, 10, none⟩
    (by decide)).2.2

/-- Rows matched by the WHERE predicate come out tombstoned at `tnow`, and
rows it does not match are kept as they were. -/
theorem softDeleteWhere_spec (t : Table κ π) (pred : κ → Bool) (tnow : Int) :
    (∀ e ∈ softDeleteWhere t pred tnow, pred e.1 = true →
        e.2.deletedAt = some tnow ∧ e.2.updatedAt = tnow)
    ∧ (∀ e ∈ t, pred e.1 = false → e ∈ softDeleteWhere t pred tnow) := by
  constructor
  · intro e he hpred
    rcases List.mem_map.mp he with ⟨e0, he0, heq⟩
    by_cases hp : pred e0.1 = true
    · rw [if_pos hp] at heq
      rw [← heq]
      exact ⟨rfl, rfl⟩
    · rw [if_neg hp] at heq
      rw [← heq] at hpred
      exact absurd hpred hp
  · intro e he hpred
    refine List.mem_map.mpr ⟨e, he, ?_⟩
    rw [if_neg (by rw [hpred]; exact Bool.false_ne_true)]

/-- C5 as frozen is false on the code: deleting a live book tombstones its
bookmarks and highlights but the handler never touches `user_notes`.
Concretely: the owner `u` deletes book `f` at time 50 while holding one
live note under `(u, f)`; the delete succeeds yet the note row keeps
`deletedAt = NULL` instead of 50. -/
theorem C5_cascade_counterexample :
    (deleteBookHandler
        (⟨[], [(("u", "f"), ⟨0, 10, none⟩)], [(("u", "f", 1), ⟨0, 10, none⟩)],
          [], [(("u", "f", 1), ⟨0, 12, none⟩)]⟩ : SyncDb Int Int Int Int)
        "u" "f" 50).1 = .deletedAt 50
    ∧ ¬(∀ e ∈ (deleteBookHandler
        (⟨[], [(("u", "f"), ⟨0, 10, none⟩)], [(("u", "f", 1), ⟨0, 10, none⟩)],
          [], [(("u", "f", 1), ⟨0, 12, none⟩)]⟩ : SyncDb Int Int Int Int)
        "u" "f" 50).2.notes,
        e.1.1 = "u" → e.1.2.1 = "f" → e.2.deletedAt = some 50) := by
  decide

/-- C5 amended: soft-deleting a live book tombstones, at the same
`deletedAt` as the book, every bookmark and highlight row under
`(owner, fileId)` — but not the note rows, which are left untouched — and
does not touch rows of other keys or the `books` asset table. -/
theorem C5_cascade_amended (s : SyncDb πb πm πh πn) (u f : String)
    (tnow : Int) (r : TRow πb)
    (hrow : findRow s.userBooks (u, f) = some r)
    (hlive : r.deletedAt = none) :
    (deleteBookHandler s u f tnow).1 = .deletedAt tnow
    ∧ findRow (deleteBookHandler s u f tnow).2.userBooks (u, f)
        = some ⟨r.payload, tnow, some tnow⟩
    ∧ (∀ e ∈ (deleteBookHandler s u f tnow).2.bookmarks,
        e.1.1 = u → e.1.2.1 = f →
          e.2.deletedAt = some tnow ∧ e.2.updatedAt = tnow)
    ∧ (∀ e ∈ s.bookmarks, ¬(e.1.1 = u ∧ e.1.2.1 = f) →
        e ∈ (deleteBookHandler s u f tnow).2.bookmarks)
    ∧ (∀ e ∈ (deleteBookHandler s u f tnow).2.highlights,
        e.1.1 = u → e.1.2.1 = f →
          e.2.deletedAt = some tnow ∧ e.2.updatedAt = tnow)
    ∧ (∀ e ∈ s.highlights, ¬(e.1.1 = u ∧ e.1.2.1 = f) →
        e ∈ (deleteBookHandler s u f tnow).2.highlights)
    ∧ (∀ e ∈ s.userBooks, e.1 ≠ (u, f) →
        e ∈ (deleteBookHandler s u f tnow).2.userBooks)
    ∧ (deleteBookHandler s u f tnow).2.notes = s.notes
    ∧ (deleteBookHandler s u f tnow).2.books = s.books := by
  have hbranch : deleteBookHandler s u f tnow
      = (.deletedAt tnow,
          { s with
            userBooks := softDeleteRow s.userBooks (u, f) tnow
            bookmarks := softDeleteWhere s.bookmarks
              (fun k => decide (k.1 = u) && decide (k.2.1 = f)) tnow
            highlights := softDeleteWhere s.highlights
              (fun k => decide (k.1 = u) && decide (k.2.1 = f)) tnow }) := by
    unfold deleteBookHandler selectRowState
    rw [hrow]
    unfold fetchRowState
    simp [hlive]
  rw [hbranch]
  dsimp only
  refine ⟨rfl, ?_, ?_, ?_, ?_, ?_, ?_, rfl, rfl⟩
  · rw [findRow_softDeleteRow_self, hrow]
    rfl
  · intro e he h1 h2
    exact (softDeleteWhere_spec s.bookmarks
      (fun k => decide (k.1 = u) && decide (k.2.1 = f)) tnow).1 e he
      (by simp [h1, h2])
  · intro e he hne
    refine (softDeleteWhere_spec s.bookmarks
      (fun k => decide (k.1 = u) && decide (k.2.1 = f)) tnow).2 e he ?_
    cases hb : (decide (e.1.1 = u) && decide (e.1.2.1 = f)) with
    | false => rfl
    | true => exact absurd (by simpa using hb) hne
  · intro e he h1 h2
    exact (softDeleteWhere_spec s.highlights
      (fun k => decide (k.1 = u) && decide (k.2.1 = f)) tnow).1 e he
      (by simp [h1, h2])
  · intro e he hne
    refine (softDeleteWhere_spec s.highlights
      (fun k => decide (k.1 = u) && decide (k.2.1 = f)) tnow).2 e he ?_
    cases hb : (decide (e.1.1 = u) && decide (e.1.2.1 = f)) with
    | false => rfl
    | true => exact absurd (by simpa using hb) hne
  · intro e he hne
    show e ∈ softDeleteRow s.userBooks (u, f) tnow
    unfold softDeleteRow
    exact List.mem_map.mpr ⟨e, he, by rw [if_neg hne]⟩

/-- Closed instance of `C5_cascade_amended`: deleting a live book with one
live bookmark of the same owner tombstones that bookmark at the book's
`deletedAt`. -/
theorem C5_cascade_amended_witness :
    (deleteBookHandler
        (⟨[], [(("u", "f"), ⟨7, 10, none⟩)], [(("u", "f", 1), ⟨0, 10, none⟩)],
          [], []⟩ : SyncDb Int Int Int Int) "u" "f" 50).1 = .deletedAt 50 := by
  exact (C5_cascade_amended
    (⟨[], [(("u", "f"), ⟨7, 10, none⟩)], [(("u", "f", 1), ⟨0, 10, none⟩)],
      [], []⟩ : SyncDb Int Int Int Int) "u" "f" 50 ⟨7, 10, none⟩
    (by decide) rfl).1

/-- C7 as frozen is false on the code: a size mismatch (1 byte received
against a claimed 2) is answered with error code `server_error` (reason
"filesize mismatch"), not `checksum_mismatch`. -/
theorem C7_checksum_counterexample :
    (verifyUploadBytes 1 2 "h" "h").errorCode.map Prod.fst
      = some "server_error"
    ∧ "server_error" ≠ "checksum_mismatch" := by
  decide

/-- C7 amended: a hash mismatch is reported as `checksum_mismatch` and a
size mismatch as `server_error` with reason "filesize mismatch"; in both
cases nothing is persisted and the temp file is removed. -/
theorem C7_upload_mismatch_amended (actualSize sizeClaim : Int)
    (actualSha shaHex : String) :
    (actualSize ≠ sizeClaim →
        verifyUploadBytes actualSize sizeClaim actualSha shaHex
          = ⟨some ("server_error", "filesize mismatch"), true, false⟩)
    ∧ (actualSize = sizeClaim → actualSha ≠ shaHex →
        verifyUploadBytes actualSize sizeClaim actualSha shaHex
          = ⟨some ("checksum_mismatch", ""), true, false⟩) := by
  constructor
  · intro h
    unfold verifyUploadBytes
    rw [if_pos h]
  · intro hsz hsha
    unfold verifyUploadBytes
    rw [if_neg (by simp [hsz]), if_pos hsha]

/-- Closed instance of `C7_upload_mismatch_amended`: a wrong hash with a
correct size is answered `checksum_mismatch` with the temp file removed. -/
theorem C7_upload_mismatch_amended_witness :
    verifyUploadBytes 2 2 "aa" "bb"
      = ⟨some ("checksum_mismatch", ""), true, false⟩ := by
  exact (C7_upload_mismatch_amended 2 2 "aa" "bb").2 rfl (by decide)

/-- C10: a request with `table = "note"` is rejected by `/check`,
`/getSince` and `/delete` with `ok:false` and error `invalid_request`
(each recognises only books/book_data, bookmark and highlight), while
`/get` dispatches "note" to `listUserNotes`; so notes are readable but not
probe-able, delta-pullable or deletable. -/
theorem C10_note_table_routing :
    unknownTableErr (checkTableDispatch "note")
      = some (false, "invalid_request", "table unknown")
    ∧ unknownTableErr (getSinceTableDispatch "note")
      = some (false, "invalid_request", "unknown tablename")
    ∧ unknownTableErr (deleteTableDispatch "note")
      = some (false, "invalid_request", "unknown table")
    ∧ getTableDispatch "note" = .serveNote
    ∧ unknownTableErr (getTableDispatch "note") = none
    ∧ (∀ table : String,
        (∀ r, checkTableDispatch table ≠ .invalidRequest r) →
        table = "books" ∨ table = "book_data"
          ∨ table = "bookmark" ∨ table = "highlight") := by
  refine ⟨by decide, by decide, by decide, by decide, by decide, ?_⟩
  intro table h
  unfold checkTableDispatch at h
  by_cases h1 : table = "books" || table = "book_data"
  · rcases Bool.or_eq_true .. |>.mp h1 with h' | h'
    · exact Or.inl (by simpa using h')
    · exact Or.inr (Or.inl (by simpa using h'))
  · rw [if_neg (by simpa using h1)] at h
    by_cases h2 : table = "bookmark" || table = "highlight"
    · rcases Bool.or_eq_true .. |>.mp h2 with h' | h'
      · exact Or.inr (Or.inr (Or.inl (by simpa using h')))
      · exact Or.inr (Or.inr (Or.inr (by simpa using h')))
    · rw [if_neg (by simpa using h2)] at h
      exact absurd rfl (h "table unknown")

/-- Closed instance of `C10_note_table_routing`: "bookmark" is one of the
tables `/check` recognises. -/
theorem C10_note_table_routing_witness :
    "bookmark" = "books" ∨ "bookmark" = "book_data"
      ∨ "bookmark" = "bookmark" ∨ "bookmark" = "highlight" := by
  refine C10_note_table_routing.2.2.2.2.2 "bookmark" ?_
  intro r h
  rw [(by decide :
    checkTableDispatch "bookmark" = TableDispatch.serveBookmark)] at h
  exact TableDispatch.noConfusion h

/-- `unordered_map::erase(it)` on the entry keyed `k`: afterwards no entry
has key `k` (keys are unique), and entries with other keys survive. -/
theorem eraseP_key_spec [DecidableEq κ] (l : List (κ × α)) (k : κ)
    (hnodup : (l.map Prod.fst).Nodup) :
    (∀ x ∈ l.eraseP (fun x => decide (x.1 = k)), x.1 ≠ k)
    ∧ (∀ x ∈ l, x.1 ≠ k → x ∈ l.eraseP (fun x => decide (x.1 = k))) := by
  induction l with
  | nil =>
      exact ⟨fun x hx => absurd hx (List.not_mem_nil x),
             fun x hx => absurd hx (List.not_mem_nil x)⟩
  | cons a rest ih =>
      rw [List.map_cons] at hnodup
      have hpair := List.nodup_cons.mp hnodup
      have hknot : a.1 ∉ rest.map Prod.fst := hpair.1
      have hnd : (rest.map Prod.fst).Nodup := hpair.2
      by_cases hp : a.1 = k
      · rw [List.eraseP_cons_of_pos (by simpa using hp)]
        constructor
        · intro x hx hxk
          exact hknot ((hp ▸ hxk) ▸ List.mem_map_of_mem Prod.fst hx)
        · intro x hx hxk
          rcases List.mem_cons.mp hx with h | h
          · exact absurd (h ▸ hp) hxk
          · exact h
      · rw [List.eraseP_cons_of_neg (by simpa using hp)]
        constructor
        · intro x hx
          rcases List.mem_cons.mp hx with h | h
          · exact h ▸ hp
          · exact (ih hnd).1 x h
        · intro x hx hxk
          rcases List.mem_cons.mp hx with h | h
          · exact h ▸ List.mem_cons_self a _
          · exact List.mem_cons_of_mem a ((ih hnd).2 x h hxk)

/-- C8: `usernameIfValid` answers the empty string (unauthenticated) if and
only if no live entry for the token exists — the token is absent from the
map or its `expires <= now` — and accessing an expired entry removes
exactly that entry from the map as a side effect. -/
theorem C8_session_resolve (sessions : List (String × Sess))
    (token : String) (now : Int)
    (hkeys : ∀ e ∈ sessions, e.1 ≠ "")
    (husers : ∀ e ∈ sessions, e.2.username ≠ "")
    (hnodup : (sessions.map Prod.fst).Nodup) :
    ((usernameIfValid sessions token now).1 = ""
      ↔ ¬∃ e ∈ sessions, e.1 = token ∧ now < e.2.expires)
    ∧ (∀ e ∈ sessions, e.1 = token → e.2.expires ≤ now →
        (∀ x ∈ (usernameIfValid sessions token now).2, x.1 ≠ token)
        ∧ ∀ x ∈ sessions, x.1 ≠ token →
            x ∈ (usernameIfValid sessions token now).2) := by
  unfold usernameIfValid
  by_cases ht : token = ""
  · rw [if_pos ht]
    constructor
    · constructor
      · rintro - ⟨e, he, h1, -⟩
        exact hkeys e he (ht ▸ h1)
      · intro _
        rfl
    · intro e he h1 _
      exact absurd (ht ▸ h1) (hkeys e he)
  · rw [if_neg ht]
    cases hf : sessions.find? (fun e => decide (e.1 = token)) with
    | none =>
        have hnone : ∀ x ∈ sessions, x.1 ≠ token := by
          intro x hx
          simpa using List.find?_eq_none.mp hf x hx
        constructor
        · constructor
          · rintro - ⟨e, he, h1, -⟩
            exact hnone e he h1
          · intro _
            rfl
        · intro e he h1 _
          exact absurd h1 (hnone e he)
    | some e =>
        have hmem : e ∈ sessions := List.mem_of_find?_eq_some hf
        have hkey : e.1 = token := by simpa using List.find?_some hf
        have huniq : ∀ x ∈ sessions, x.1 = token → x = e := fun x hx hxk =>
          List.inj_on_of_nodup_map hnodup hx hmem (by rw [hxk, hkey])
        dsimp only
        by_cases hexp : e.2.expires ≤ now
        · rw [if_pos hexp]
          constructor
          · constructor
            · rintro - ⟨x, hx, h1, h2⟩
              rw [huniq x hx h1] at h2
              exact absurd hexp (not_le.mpr h2)
            · intro _
              rfl
          · intro e' he' h1 h2
            exact ⟨(eraseP_key_spec sessions token hnodup).1,
                   fun x hx hxk =>
                     (eraseP_key_spec sessions token hnodup).2 x hx hxk⟩
        · rw [if_neg hexp]
          constructor
          · constructor
            · intro hu
              exact absurd hu (husers e hmem)
            · intro hne
              exact absurd ⟨e, hmem, hkey, not_le.mp hexp⟩ hne
          · intro e' he' h1 h2
            rw [huniq e' he' h1] at h2
            exact absurd h2 hexp

/-- Closed instance of `C8_session_resolve`: a token with a live entry does
not resolve to the empty username. -/
theorem C8_session_resolve_witness :
    (usernameIfValid [("tok", (⟨"alice", "dev", 100⟩ : Sess))] "tok" 50).1
        = ""
      ↔ ¬∃ e ∈ [("tok", (⟨"alice", "dev", 100⟩ : Sess))],
          e.1 = "tok" ∧ (50 : Int) < e.2.expires := by
  exact (C8_session_resolve [("tok", ⟨"alice", "dev", 100⟩)] "tok" 50
    (by decide) (by decide) (by decide)).1

/-- C9: `GET /book/{fileId}` answers 404 when the asset row is missing or
the file is absent on disk, 500 (`size mismatch`) when the on-disk size
disagrees with the recorded one, and otherwise streams the file with the
content hash and client file name attached as headers.  (The schema's
`filesize >= 0` CHECK and a non-empty stored client file name are taken as
hypotheses.) -/
theorem C9_download_statuses (books : List BookRec)
    (fsSizes : List (String × Int)) (fileId : String)
    (hfn : ∀ b ∈ books, b.filename ≠ "")
    (hsz : ∀ b ∈ books, 0 ≤ b.filesize) :
    (books.find? (fun b => decide (b.fileId = fileId)) = none →
        getBookHandler books fsSizes fileId
          = .notFound "book record not found")
    ∧ (∀ b, books.find? (fun b2 => decide (b2.fileId = fileId)) = some b →
        (fsSizes.find? (fun e => decide (e.1 = b.location)) = none →
            getBookHandler books fsSizes fileId
              = .notFound "file not found")
        ∧ (∀ a, fsSizes.find? (fun e => decide (e.1 = b.location)) = some a →
            (a.2 ≠ b.filesize →
                getBookHandler books fsSizes fileId
                  = .serverError "size mismatch")
            ∧ (a.2 = b.filesize →
                getBookHandler books fsSizes fileId
                  = .fileStream b.location
                      [("X-Checksum-SHA256", b.sha256),
                       ("X-Filename", b.filename)]))) := by
  constructor
  · intro hnone
    unfold getBookHandler getBookForDownload
    rw [hnone]
    dsimp only
    rw [if_pos rfl]
  · intro b hb
    have hbmem : b ∈ books := List.mem_of_find?_eq_some hb
    have hfnb : b.filename ≠ "" := hfn b hbmem
    have hszb : 0 ≤ b.filesize := hsz b hbmem
    constructor
    · intro hfs
      unfold getBookHandler getBookForDownload
      rw [hb]
      dsimp only
      rw [if_neg hfnb, hfs]
    · intro a ha
      constructor
      · intro hne
        unfold getBookHandler getBookForDownload
        rw [hb]
        dsimp only
        rw [if_neg hfnb, ha]
        dsimp only
        rw [if_pos (by simp [hszb, hne])]
      · intro heq
        unfold getBookHandler getBookForDownload
        rw [hb]
        dsimp only
        rw [if_neg hfnb, ha]
        dsimp only
        rw [if_neg (by simp [heq])]

/-- Closed instance of `C9_download_statuses`: an asset whose on-disk size
disagrees with the recorded size is answered with 500 `size mismatch`. -/
theorem C9_download_statuses_witness :
    getBookHandler [⟨"f1", "h", 5, "p1", "b.epub", 10⟩] [("p1", 7)] "f1"
      = .serverError "size mismatch" := by
  exact (((C9_download_statuses [⟨"f1", "h", 5, "p1", "b.epub", 10⟩]
    [("p1", 7)] "f1" (by decide) (by decide)).2
    ⟨"f1", "h", 5, "p1", "b.epub", 10⟩ (by decide)).2
    ("p1", 7) (by decide)).1 (by decide)

/-- Under the uniqueness invariant, the hash+size lookup of a stored asset
finds exactly that asset's id. -/
theorem lookupFileId_of_mem (books : List BookRec) (b : BookRec)
    (hinv : UniqueAssets books) (hb : b ∈ books) :
    lookupFileIdByHashSize books b.sha256 b.filesize = b.fileId := by
  induction books with
  | nil => exact absurd hb (List.not_mem_nil b)
  | cons a rest ih =>
      have hpair := List.pairwise_cons.mp hinv
      rcases List.mem_cons.mp hb with h | h
      · subst h
        unfold lookupFileIdByHashSize
        rw [List.find?_cons_of_pos _ (by simp)]
      · have hne := hpair.1 b h
        unfold lookupFileIdByHashSize at ih ⊢
        rw [List.find?_cons_of_neg]
        · exact ih hpair.2 h
        · simp only [Bool.and_eq_true, decide_eq_true_eq]
          intro hcon
          exact hne ⟨hcon.1, hcon.2⟩

/-- When no stored asset matches the hash+size pair the lookup answers the
empty string. -/
theorem lookupFileId_of_absent (books : List BookRec) (sha : String)
    (size : Int)
    (h : ∀ x ∈ books, ¬(x.sha256 = sha ∧ x.filesize = size)) :
    lookupFileIdByHashSize books sha size = "" := by
  unfold lookupFileIdByHashSize
  have hfind : books.find? (fun b => decide (b.sha256 = sha)
      && decide (b.filesize = size)) = none :=
    List.find?_eq_none.mpr (by intro x hx; simpa using h x hx)
  rw [hfind]

/-- A successful asset insert appended the row, and nothing already stored
shared its hash+size pair. -/
theorem insertBookRecord_ok_inv (books : List BookRec) (b : BookRec)
    (books2 : List BookRec) (h : insertBookRecord books b = .ok books2) :
    books2 = books ++ [b]
    ∧ ∀ x ∈ books, ¬(x.sha256 = b.sha256 ∧ x.filesize = b.filesize) := by
  unfold insertBookRecord at h
  by_cases hany : books.any (fun x => decide (x.fileId = b.fileId)
      || (decide (x.sha256 = b.sha256) && decide (x.filesize = b.filesize)))
      = true
  · rw [if_pos hany] at h
    exact Except.noConfusion h
  · rw [if_neg hany] at h
    refine ⟨(Except.ok.inj h).symm, ?_⟩
    intro x hx hcon
    exact hany (List.any_eq_true.mpr
      ⟨x, hx, by simp [hcon.1, hcon.2]⟩)

/-- A fresh insert succeeds when neither key nor hash+size collide. -/
theorem insertBookRecord_fresh (books : List BookRec) (b : BookRec)
    (h : ∀ x ∈ books, x.fileId ≠ b.fileId
        ∧ ¬(x.sha256 = b.sha256 ∧ x.filesize = b.filesize)) :
    insertBookRecord books b = .ok (books ++ [b]) := by
  unfold insertBookRecord
  rw [if_neg]
  simp only [List.any_eq_true, Bool.or_eq_true, Bool.and_eq_true,
    decide_eq_true_eq, not_exists, not_and, not_or]
  intro x hx
  exact ⟨(h x hx).1, fun h1 h2 => (h x hx).2 ⟨h1, h2⟩⟩

/-- An insert whose hash+size pair is already stored fails with the
uniqueness violation. -/
theorem insertBookRecord_dup (books : List BookRec) (b x : BookRec)
    (hx : x ∈ books)
    (hdup : x.sha256 = b.sha256 ∧ x.filesize = b.filesize) :
    insertBookRecord books b = .error () := by
  unfold insertBookRecord
  rw [if_pos (List.any_eq_true.mpr ⟨x, hx, by simp [hdup.1, hdup.2]⟩)]

/-- Appending a row with a fresh hash+size pair preserves uniqueness. -/
theorem UniqueAssets_append (books : List BookRec) (b : BookRec)
    (hinv : UniqueAssets books)
    (hno : ∀ x ∈ books, ¬(x.sha256 = b.sha256 ∧ x.filesize = b.filesize)) :
    UniqueAssets (books ++ [b]) := by
  unfold UniqueAssets at hinv ⊢
  rw [List.pairwise_append]
  exact ⟨hinv, List.pairwise_singleton _ b,
    fun a ha b' hb' => (List.mem_singleton.mp hb') ▸ hno a ha⟩

/-- When the content is already stored (with a non-empty id), any upload of
it answers that id and leaves the asset table unchanged — through the
early dedup when the client sent no id, and through the
insert-violation/lookup path when it did. -/
theorem uploadCommit_existing (books : List BookRec) (unknownId : Bool)
    (sid uuid sha : String) (size : Int) (loc fn : String) (tnow : Int)
    (hinv : UniqueAssets books) (b : BookRec) (hb : b ∈ books)
    (hsha : b.sha256 = sha) (hsz : b.filesize = size)
    (hfid : b.fileId ≠ "") :
    uploadBookCommit books unknownId sid uuid sha size loc fn tnow
      = (books, some b.fileId) := by
  subst hsha
  subst hsz
  have hlook := lookupFileId_of_mem books b hinv hb
  unfold uploadBookCommit
  cases unknownId with
  | true =>
      rw [if_pos (by simp [hlook, hfid])]
      rw [hlook]
  | false =>
      rw [if_neg (by simp)]
      dsimp only
      rw [show (if (false : Bool) = true then uuid else sid) = sid from rfl]
      rw [insertBookRecord_dup books
        ⟨sid, b.sha256, b.filesize, loc, fn, tnow⟩ b hb ⟨rfl, rfl⟩]
      dsimp only
      rw [hlook, if_neg hfid]

/-- Uploading content no asset row matches, under a fresh id, inserts
exactly one row and answers that id. -/
theorem uploadCommit_fresh (books : List BookRec) (unknownId : Bool)
    (sid uuid sha : String) (size : Int) (loc fn : String) (tnow : Int)
    (hno : ∀ x ∈ books, ¬(x.sha256 = sha ∧ x.filesize = size))
    (hid : ∀ x ∈ books, x.fileId ≠ (if unknownId then uuid else sid)) :
    uploadBookCommit books unknownId sid uuid sha size loc fn tnow
      = (books ++ [⟨(if unknownId then uuid else sid), sha, size, loc, fn,
          tnow⟩],
         some (if unknownId then uuid else sid)) := by
  have hlook := lookupFileId_of_absent books sha size hno
  unfold uploadBookCommit
  rw [if_neg (by simp [hlook])]
  dsimp only
  rw [insertBookRecord_fresh books
    ⟨(if unknownId = true then uuid else sid), sha, size, loc, fn, tnow⟩
    (fun x hx => ⟨hid x hx, hno x hx⟩)]

/-- C2: the `(sha256, filesize)` pair stays unique across every upload;
an upload of already-stored content answers the stored row's `fileId` and
adds nothing; and when two uploads of the same new content race, the first
inserts one row and the second — whatever ids it carries — hits the
uniqueness violation (or the early dedup) and answers the winner's
`fileId` without creating a second row. -/
theorem C2_asset_dedup (books : List BookRec) (unknownId : Bool)
    (suppliedId newUuid sha : String) (size : Int) (loc fn : String)
    (tnow : Int) (hinv : UniqueAssets books) :
    UniqueAssets
      (uploadBookCommit books unknownId suppliedId newUuid sha size loc fn
        tnow).1
    ∧ (∀ b ∈ books, b.sha256 = sha → b.filesize = size → b.fileId ≠ "" →
        uploadBookCommit books unknownId suppliedId newUuid sha size loc fn
            tnow
          = (books, some b.fileId))
    ∧ ((∀ x ∈ books, ¬(x.sha256 = sha ∧ x.filesize = size)) →
        (∀ x ∈ books, x.fileId ≠ (if unknownId then newUuid else suppliedId)) →
        (if unknownId then newUuid else suppliedId) ≠ "" →
        ∀ (u2 : Bool) (sid2 uuid2 loc2 fn2 : String) (tnow2 : Int),
          uploadBookCommit
              (uploadBookCommit books unknownId suppliedId newUuid sha size
                loc fn tnow).1 u2 sid2 uuid2 sha size loc2 fn2 tnow2
            = ((uploadBookCommit books unknownId suppliedId newUuid sha size
                loc fn tnow).1,
               some (if unknownId then newUuid else suppliedId))) := by
  refine ⟨?_, ?_, ?_⟩
  · unfold uploadBookCommit
    by_cases hearly : (unknownId
        && !(lookupFileIdByHashSize books sha size == "")) = true
    · rw [if_pos hearly]
      exact hinv
    · rw [if_neg hearly]
      dsimp only
      cases hrec : insertBookRecord books
          ⟨(if unknownId then newUuid else suppliedId), sha, size, loc, fn,
            tnow⟩ with
      | ok books2 =>
          have hok := insertBookRecord_ok_inv books _ books2 hrec
          dsimp only
          rw [hok.1]
          exact UniqueAssets_append books _ hinv hok.2
      | error u =>
          dsimp only
          by_cases hempty : lookupFileIdByHashSize books sha size = ""





          · rw [if_pos hempty]
            exact hinv
          · rw [if_neg hempty]
            exact hinv
  · intro b hb hsha hsz hfid
    exact uploadCommit_existing books unknownId suppliedId newUuid sha size
      loc fn tnow hinv b hb hsha hsz hfid
  · intro hno hid hne u2 sid2 uuid2 loc2 fn2 tnow2
    rw [uploadCommit_fresh books unknownId suppliedId newUuid sha size loc
      fn tnow hno hid]
    dsimp only
    have hinv2 : UniqueAssets (books
        ++ [⟨(if unknownId then newUuid else suppliedId), sha, size, loc,
              fn, tnow⟩]) :=
      UniqueAssets_append books _ hinv hno
    exact uploadCommit_existing _ u2 sid2 uuid2 sha size loc2 fn2 tnow2
      hinv2 _ (List.mem_append_right books (List.mem_singleton.mpr rfl))
      rfl rfl hne

/-- Closed instance of `C2_asset_dedup`: after an empty store accepts new
content under uuid `u1`, a second racing upload of the same content with a
client-supplied id answers `u1` and adds no second row. -/
theorem C2_asset_dedup_witness :
    uploadBookCommit
        (uploadBookCommit [] true "" "u1" "h" 5 "l" "f" 1).1
        false "x" "y" "h" 5 "l2" "f2" 2
      = ((uploadBookCommit [] true "" "u1" "h" 5 "l" "f" 1).1,
         some "u1") := by
  have h := (C2_asset_dedup [] true "" "u1" "h" 5 "l" "f" 1
    List.Pairwise.nil).2.2
    (by intro x hx; exact absurd hx (List.not_mem_nil x))
    (by intro x hx; exact absurd hx (List.not_mem_nil x))
    (by decide) false "x" "y" "l2" "f2" 2
  simpa using h

/-- Behaviour of the `fetch = limit + 1` scan plus `computePagingNextSince`
over an arbitrary candidate list `S`: the three `nextSince` cases of the
paging contract. -/
theorem paging_take_spec (S : List BmRow) (since : Int) (limit : Nat) :
    (S.length = 0 →
        computePagingNextSince since ((S.take (limit + 1)).map bmTs)
          (decide ((S.take (limit + 1)).length > limit)) = since)
    ∧ (∀ last, S.length = limit → S.getLast? = some last →
        computePagingNextSince since ((S.take (limit + 1)).map bmTs)
          (decide ((S.take (limit + 1)).length > limit)) = bmTs last)
    ∧ (∀ h : limit < S.length,
        computePagingNextSince since ((S.take (limit + 1)).map bmTs)
          (decide ((S.take (limit + 1)).length > limit))
          = bmTs (S.get ⟨limit, h⟩)) := by
  refine ⟨?_, ?_, ?_⟩
  · intro hlen
    rw [List.length_eq_zero.mp hlen, List.take_nil, List.map_nil]
    have hc : decide (([] : List BmRow).length > limit) = false := by simp
    rw [hc]
    unfold computePagingNextSince
    rw [if_neg Bool.false_ne_true, List.isEmpty_nil, Bool.not_true,
      if_neg Bool.false_ne_true]
  · intro last hlen hlast
    have hfull : S.take (limit + 1) = S :=
      List.take_of_length_le (by rw [hlen]; exact Nat.le_succ limit)
    rw [hfull]
    have hc : decide (S.length > limit) = false := by rw [hlen]; simp
    rw [hc]
    unfold computePagingNextSince
    rw [if_neg Bool.false_ne_true]
    have hne : S ≠ [] := by
      intro h0
      rw [h0] at hlast
      exact Option.noConfusion hlast
    have hie : (S.map bmTs).isEmpty = false := by
      cases hb : (S.map bmTs).isEmpty
      · rfl
      · exact absurd (List.map_eq_nil_iff.mp (List.isEmpty_iff.mp hb)) hne
    rw [hie, Bool.not_false, if_pos rfl,
      List.getLastD_eq_getLast?, List.getLast?_map, hlast]
    rfl
  · intro h
    have hlen1 : (S.take (limit + 1)).length = limit + 1 := by
      rw [List.length_take]
      exact Nat.min_eq_left h
    have hc : decide ((S.take (limit + 1)).length > limit) = true := by
      rw [hlen1]
      simp
    rw [hc]
    unfold computePagingNextSince
    rw [if_pos rfl, List.getLastD_eq_getLast?, List.getLast?_map]
    have hgl : (S.take (limit + 1)).getLast? = some (S.get ⟨limit, h⟩) := by
      rw [List.getLast?_eq_getElem?, hlen1]
      simp only [Nat.add_sub_cancel]
      rw [List.getElem?_take, if_pos (Nat.lt_succ_self limit),
        List.getElem?_eq_getElem h, List.get_eq_getElem]
    rw [hgl]
    rfl

/-- C3: a `/getSince` call over the bookmark table returns exactly the
first up-to-`limit` rows among those with `COALESCE(deleted_at, updated_at)
>= since` for the owner, in ascending `(ts, fileId, id)` order (the
candidate list is a permutation of the filtered rows and is sorted by that
lexicographic order, spelt out in the fourth conjunct); `nextSince` is the
input `since` when no row matched, the last returned row's timestamp when
exactly `limit` matched, and the unreturned `(limit+1)`-th candidate's
timestamp when more than `limit` matched. -/
theorem C3_getSince_paging (db : List BmRow) (u : String) (since : Int)
    (limit : Nat) :
    ((listUserBookmarksSince db u since limit).1
      = (List.insertionSort bmLE (db.filter (bmSincePred u since))).take
          limit)
    ∧ (List.insertionSort bmLE (db.filter (bmSincePred u since))).Perm
        (db.filter (bmSincePred u since))
    ∧ List.Sorted bmLE
        (List.insertionSort bmLE (db.filter (bmSincePred u since)))
    ∧ (∀ a b : BmRow, bmLE a b ↔
        (bmTs a < bmTs b ∨ (bmTs a = bmTs b
          ∧ (a.fileId < b.fileId ∨ (a.fileId = b.fileId ∧ a.id ≤ b.id)))))
    ∧ ((db.filter (bmSincePred u since)).length = 0 →
        (listUserBookmarksSince db u since limit).2 = since)
    ∧ (∀ last,
        (List.insertionSort bmLE (db.filter (bmSincePred u since))).length
            = limit →
        (List.insertionSort bmLE
            (db.filter (bmSincePred u since))).getLast? = some last →
        (listUserBookmarksSince db u since limit).2 = bmTs last)
    ∧ (∀ h : limit <
          (List.insertionSort bmLE (db.filter (bmSincePred u since))).length,
        (listUserBookmarksSince db u since limit).2
          = bmTs ((List.insertionSort bmLE
              (db.filter (bmSincePred u since))).get ⟨limit, h⟩)) := by
  refine ⟨?_, List.perm_insertionSort bmLE _,
    List.sorted_insertionSort bmLE _, ?_, ?_, ?_, ?_⟩
  · unfold listUserBookmarksSince
    dsimp only
    rw [List.take_take, Nat.min_eq_left (Nat.le_succ limit)]
  · intro a b
    simp [bmLE, bmKey, Prod.Lex.le_iff]
  · intro hlen
    unfold listUserBookmarksSince
    dsimp only
    refine (paging_take_spec _ since limit).1 ?_
    rw [(List.perm_insertionSort bmLE _).length_eq]
    exact hlen
  · intro last hlen hlast
    unfold listUserBookmarksSince
    dsimp only
    exact (paging_take_spec _ since limit).2.1 last hlen hlast
  · intro h
    unfold listUserBookmarksSince
    dsimp only
    exact (paging_take_spec _ since limit).2.2 h

/-- Closed instance of `C3_getSince_paging`: two matching rows with
timestamps 5 and 9, `limit = 1`: the row with ts 5 is returned and
`nextSince` is 9, the unreturned extra row's timestamp. -/
theorem C3_getSince_paging_witness :
    (listUserBookmarksSince
        [⟨"u", "a", 1, "l", none, 5, none⟩,
         ⟨"u", "b", 2, "m", none, 9, none⟩] "u" 0 1).2 = 9 := by
  have h := (C3_getSince_paging
    [⟨"u", "a", 1, "l", none, 5, none⟩,
     ⟨"u", "b", 2, "m", none, 9, none⟩] "u" 0 1).2.2.2.2.2.2 (by decide)
  exact h.trans (by decide)

end SimpleReader
